import Mathlib

/-!
Verification of the EazyBooks client (Angular/TypeScript) against its
natural-language specification.  The TypeScript sources are shallowly
embedded: JavaScript `Date` objects are modelled at day resolution by a
`JSDate` triple with the native month/day normalization (rollover) of the
ECMAScript calendar, numbers by `Rat`, strings by `String`, nullable and
falsy values by `Option`, and the Firestore-backed transaction store by an
explicit state record.
-/

/-! ### The JavaScript calendar (proleptic Gregorian, day resolution) -/

/-- Model of a JavaScript `Date` at day resolution: `year` is the full year,
`month` is zero-based as in `Date.getMonth`, `day` is one-based as in
`Date.getDate`.  Values produced by `JSDate.make` are normalized. -/
structure JSDate where
  year : Int
  month : Int
  day : Int
deriving DecidableEq, Repr

/-- Gregorian leap-year rule, as implemented by the ECMAScript calendar. -/
def isLeapYear (y : Int) : Bool :=
  (y % 4 == 0 && y % 100 != 0) || (y % 400 == 0)

/-- Number of days of the zero-based month `m` of year `y` (out-of-range `m`
defaults to 31; `JSDate.make` only applies it to canonical months). -/
def daysInMonth (y m : Int) : Int :=
  if m = 1 then (if isLeapYear y then 29 else 28)
  else if m = 3 ∨ m = 5 ∨ m = 8 ∨ m = 10 then 30
  else 31

theorem daysInMonth_ge_28 (y m : Int) : 28 ≤ daysInMonth y m := by
  unfold daysInMonth
  split_ifs <;> norm_num

theorem daysInMonth_pos (y m : Int) : 0 < daysInMonth y m := by
  have h := daysInMonth_ge_28 y m
  omega

theorem daysInMonth_le_31 (y m : Int) : daysInMonth y m ≤ 31 := by
  unfold daysInMonth
  split_ifs <;> norm_num

theorem daysInMonth_year_irrel (y y' m : Int) (h : m ≠ 1) :
    daysInMonth y m = daysInMonth y' m := by
  unfold daysInMonth
  simp [h]

/-- Day-overflow normalization: move an over-large day value forward into
the following months, as ECMAScript date arithmetic does.  Every step
shrinks the day by at least 28, so any `fuel` of at least the day value
reaches the fixed point; `JSDate.make` supplies such a fuel. -/
def carryLoop (fuel : Nat) (y m d : Int) : JSDate :=
  match fuel with
  | 0 => ⟨y, m, d⟩
  | fuel + 1 =>
      if d ≤ daysInMonth y m then ⟨y, m, d⟩
      else if 11 ≤ m then carryLoop fuel (y + 1) 0 (d - daysInMonth y m)
      else carryLoop fuel y (m + 1) (d - daysInMonth y m)

/-- Day-underflow normalization: move a non-positive day value backward into
the preceding months, as ECMAScript date arithmetic does.  Every step grows
the day by at least 28, so any `fuel` of at least `1 - d` reaches the fixed
point; `JSDate.make` supplies such a fuel. -/
def borrowLoop (fuel : Nat) (y m d : Int) : JSDate :=
  match fuel with
  | 0 => ⟨y, m, d⟩
  | fuel + 1 =>
      if 1 ≤ d then ⟨y, m, d⟩
      else if m ≤ 0 then borrowLoop fuel (y - 1) 11 (d + daysInMonth (y - 1) 11)
      else borrowLoop fuel y (m - 1) (d + daysInMonth y (m - 1))

/-- Model of the ECMAScript day constructor `new Date(y, m, d)` (and of the
`setFullYear` / `setMonth` / `setDate` mutators): the month is first folded
into the year, then the day is normalized by rollover. -/
def JSDate.make (y m d : Int) : JSDate :=
  let y1 := y + m / 12
  let m1 := m % 12
  if d < 1 then borrowLoop (1 - d).toNat y1 m1 d else carryLoop d.toNat y1 m1 d

/-- Model of `date.setMonth(m)` (returning the new value). -/
def JSDate.setMonth (dt : JSDate) (m : Int) : JSDate :=
  JSDate.make dt.year m dt.day

/-- Model of `date.setFullYear(y)` (returning the new value). -/
def JSDate.setFullYear (dt : JSDate) (y : Int) : JSDate :=
  JSDate.make y dt.month dt.day

/-- Model of `date.setDate(d)` (returning the new value). -/
def JSDate.setDate (dt : JSDate) (d : Int) : JSDate :=
  JSDate.make dt.year dt.month d

/-- A `JSDate` is valid (normalized) when its month is canonical and its day
exists in that month. -/
def JSDate.Valid (dt : JSDate) : Prop :=
  0 ≤ dt.month ∧ dt.month < 12 ∧ 1 ≤ dt.day ∧ dt.day ≤ daysInMonth dt.year dt.month

instance (dt : JSDate) : Decidable dt.Valid := by
  unfold JSDate.Valid
  infer_instance

/-- Chronological order on day-resolution dates; on normalized dates this is
exactly the order of the underlying millisecond timestamps that the
JavaScript comparison `currentDate >= nextDueDate` uses. -/
def JSDate.le (a b : JSDate) : Bool :=
  decide (a.year < b.year) ||
    (decide (a.year = b.year) &&
      (decide (a.month < b.month) ||
        (decide (a.month = b.month) && decide (a.day ≤ b.day))))

theorem carryLoop_base (fuel : Nat) (y m d : Int) (hf : 0 < fuel)
    (h : d ≤ daysInMonth y m) : carryLoop fuel y m d = ⟨y, m, d⟩ := by
  match fuel with
  | 0 => omega
  | fuel + 1 =>
    unfold carryLoop
    simp [h]

theorem make_of_valid (y m d : Int) (h : (JSDate.mk y m d).Valid) :
    JSDate.make y m d = ⟨y, m, d⟩ := by
  obtain ⟨h1, h2, h3, h4⟩ := h
  simp only [JSDate.Valid] at h1 h2 h3 h4
  unfold JSDate.make
  have hdiv : m / 12 = 0 := Int.ediv_eq_zero_of_lt h1 h2
  have hmod : m % 12 = m := Int.emod_eq_of_lt h1 h2
  rw [hdiv, hmod]
  simp only [add_zero]
  rw [if_neg (by omega)]
  exact carryLoop_base d.toNat y m d (by omega) h4

theorem setDate_self (dt : JSDate) (h : dt.Valid) : dt.setDate dt.day = dt := by
  unfold JSDate.setDate
  rw [make_of_valid dt.year dt.month dt.day h]

/-! ### The recurring-transaction model (`transaction-entry.model.ts`) -/

/-- Truthiness of an optional string, as JavaScript sees it: `undefined`,
`null` and the empty string are falsy. -/
def truthyStr (o : Option String) : Bool :=
  match o with
  | none => false
  | some s => decide (s ≠ "")

/-- Truthiness of an optional number: `undefined`, `null` and `0` are falsy. -/
def truthyInt (o : Option Int) : Bool :=
  match o with
  | none => false
  | some n => decide (n ≠ 0)

/-- The fields of `TransactionEntry` that its recurrence logic reads. -/
structure TransactionEntry where
  date : JSDate
  repeatInterval : String
  quarter : Option String
  dayOfMonth : Option Int
deriving DecidableEq, Repr

/-- Position of a quarter label in the array `['Q1','Q2','Q3','Q4']`
(`indexOf`, hence `-1` when absent). -/
def quarterIndex (q : String) : Int :=
  if q = "Q1" then 0
  else if q = "Q2" then 1
  else if q = "Q3" then 2
  else if q = "Q4" then 3
  else -1

/-- Element lookup in the array `['Q1','Q2','Q3','Q4']` for indices 0–3. -/
def quarterAt (i : Int) : String :=
  if i = 0 then "Q1"
  else if i = 1 then "Q2"
  else if i = 2 then "Q3"
  else "Q4"

/-- Model of `TransactionEntry.updateNextDueDate`: advance the anchor date by
the repeat interval.  Monthly adds one month and then re-pins a truthy
`dayOfMonth`; yearly adds one year; quarterly requires a truthy `quarter`
label, cycles it, and adds three months; anything else leaves the entry
unchanged (the code logs an error and returns). -/
def TransactionEntry.updateNextDueDate (e : TransactionEntry) : TransactionEntry :=
  if e.repeatInterval = "monthly" then
    let nd := e.date.setMonth (e.date.month + 1)
    let nd :=
      match e.dayOfMonth with
      | some dm => if dm ≠ 0 then nd.setDate dm else nd
      | none => nd
    { e with date := nd }
  else if e.repeatInterval = "yearly" then
    { e with date := e.date.setFullYear (e.date.year + 1) }
  else if e.repeatInterval = "quarterly" ∧ truthyStr e.quarter = true then
    match e.quarter with
    | some q =>
        { e with
            quarter := some (quarterAt ((quarterIndex q + 1) % 4)),
            date := e.date.setMonth (e.date.month + 3) }
    | none => e
  else e

/-- Specification-side calendar step: advance a date by `k` calendar months,
with the native rollover of the ECMAScript constructor. -/
def addCalendarMonths (dt : JSDate) (k : Int) : JSDate :=
  JSDate.make dt.year (dt.month + k) dt.day

/-- Specification-side calendar step: advance a date by `k` calendar years,
with the native rollover of the ECMAScript constructor. -/
def addCalendarYears (dt : JSDate) (k : Int) : JSDate :=
  JSDate.make (dt.year + k) dt.month dt.day

theorem daysInMonth_feb_le (y : Int) : daysInMonth y 1 ≤ 29 := by
  unfold daysInMonth
  split_ifs <;> omega

theorem make_succYear (y m d : Int) (h : (JSDate.mk y m d).Valid)
    (hnot : ¬(m = 1 ∧ d = 29)) : JSDate.make (y + 1) m d = ⟨y + 1, m, d⟩ := by
  obtain ⟨h1, h2, h3, h4⟩ := h
  simp only [JSDate.Valid] at h1 h2 h3 h4
  apply make_of_valid
  refine ⟨h1, h2, h3, ?_⟩
  show d ≤ daysInMonth (y + 1) m
  by_cases hm : m = 1
  · subst hm
    have hd29 : d ≠ 29 := fun hh => hnot ⟨rfl, hh⟩
    have h5 := daysInMonth_feb_le y
    have h6 := daysInMonth_ge_28 (y + 1) 1
    omega
  · rw [← daysInMonth_year_irrel y (y + 1) m hm]
    exact h4

/-- C1, claim as stated, refuted at concrete inputs: a quarterly entry whose
quarter label is unset is left unchanged instead of advancing three months,
and a yearly entry anchored on 2024-02-29 moves to 2025-03-01 instead of
keeping the same month and day. -/
theorem c1_counterexample :
    (TransactionEntry.updateNextDueDate ⟨⟨2024, 0, 15⟩, "quarterly", none, none⟩).date
        ≠ addCalendarMonths ⟨2024, 0, 15⟩ 3
      ∧ ((TransactionEntry.updateNextDueDate ⟨⟨2024, 1, 29⟩, "yearly", none, none⟩).date.month
            = (1 : Int)
          ∧ (TransactionEntry.updateNextDueDate ⟨⟨2024, 1, 29⟩, "yearly", none, none⟩).date.day
            = (29 : Int)) = False := by
  decide

/-- C1 (amended): for a recurring `TransactionEntry` with a valid anchor
date, `updateNextDueDate` advances the anchor according to `repeatInterval`:
monthly adds one calendar month, pinning a set day-of-month with native
calendar rollover; quarterly — provided the quarter label is set — adds
three calendar months and cycles the label Q1→Q2→Q3→Q4→Q1 (with the label
unset the entry is left unchanged); yearly adds one calendar year, keeping
the same month and day except for a February 29 anchor, which rolls over. -/
theorem c1_updateNextDueDate (e : TransactionEntry) (hv : e.date.Valid) :
    (e.repeatInterval = "monthly" → e.dayOfMonth = none →
        e.updateNextDueDate = { e with date := addCalendarMonths e.date 1 })
      ∧ (e.repeatInterval = "monthly" → ∀ dm : Int, e.dayOfMonth = some dm → dm ≠ 0 →
        e.updateNextDueDate = { e with date := (addCalendarMonths e.date 1).setDate dm })
      ∧ (e.repeatInterval = "quarterly" → ∀ q : String, e.quarter = some q → q ≠ "" →
        (e.updateNextDueDate).date = addCalendarMonths e.date 3
          ∧ (q = "Q1" → (e.updateNextDueDate).quarter = some "Q2")
          ∧ (q = "Q2" → (e.updateNextDueDate).quarter = some "Q3")
          ∧ (q = "Q3" → (e.updateNextDueDate).quarter = some "Q4")
          ∧ (q = "Q4" → (e.updateNextDueDate).quarter = some "Q1"))
      ∧ (e.repeatInterval = "quarterly" → e.quarter = none → e.updateNextDueDate = e)
      ∧ (e.repeatInterval = "yearly" →
        (e.updateNextDueDate).date = addCalendarYears e.date 1
          ∧ (¬(e.date.month = 1 ∧ e.date.day = 29) →
            (e.updateNextDueDate).date = ⟨e.date.year + 1, e.date.month, e.date.day⟩)) := by
  refine ⟨?_, ?_, ?_, ?_, ?_⟩
  · intro hm hd
    simp [TransactionEntry.updateNextDueDate, hm, hd, JSDate.setMonth, addCalendarMonths]
  · intro hm dm hd hdm
    simp [TransactionEntry.updateNextDueDate, hm, hd, hdm, JSDate.setMonth, addCalendarMonths]
  · intro hq q hqs hqne
    have : e.updateNextDueDate =
        { e with
            quarter := some (quarterAt ((quarterIndex q + 1) % 4)),
            date := e.date.setMonth (e.date.month + 3) } := by
      simp [TransactionEntry.updateNextDueDate, hq, hqs, truthyStr, hqne]
    refine ⟨?_, ?_, ?_, ?_, ?_⟩
    · rw [this]
      rfl
    · intro h1
      rw [this]
      simp [h1, quarterIndex, quarterAt]
    · intro h1
      rw [this]
      simp [h1, quarterIndex, quarterAt]
    · intro h1
      rw [this]
      simp [h1, quarterIndex, quarterAt]
    · intro h1
      rw [this]
      simp [h1, quarterIndex, quarterAt]
  · intro hq hqn
    simp [TransactionEntry.updateNextDueDate, hq, hqn, truthyStr]
  · intro hy
    have hd : (e.updateNextDueDate).date = addCalendarYears e.date 1 := by
      simp [TransactionEntry.updateNextDueDate, hy, JSDate.setFullYear, addCalendarYears]
    refine ⟨hd, ?_⟩
    intro hnot
    rw [hd]
    unfold addCalendarYears
    exact make_succYear e.date.year e.date.month e.date.day hv hnot

/-- C1 witness: the amended theorem applied to the concrete monthly entry
anchored 2024-04-15 with no pinned day of month. -/
theorem c1_witness :
    TransactionEntry.updateNextDueDate ⟨⟨2024, 3, 15⟩, "monthly", none, none⟩
      = ⟨⟨2024, 4, 15⟩, "monthly", none, none⟩ := by
  have h := (c1_updateNextDueDate ⟨⟨2024, 3, 15⟩, "monthly", none, none⟩ (by decide)).1
    rfl rfl
  rw [h]
  decide

/-! ### The standing-order dialog (`standing-dialog.component.ts`) -/

/-- Truthiness of an optional number: `undefined`, `null` and `0` are falsy. -/
def truthyQ (o : Option Rat) : Bool :=
  match o with
  | none => false
  | some q => decide (q ≠ 0)

/-- The fields of the dialog's transaction that its submission logic reads.
`saveTransaction` persists through `updateTransaction` or `addTransaction`
depending on `documentNumber`; both persist, so the field is omitted. -/
structure DialogTxn where
  date : Option JSDate
  gross : Option Rat
  net : Option Rat
  description : Option String
  incomeExpenses : Option String
  repeatInterval : String
  quarter : Option String
deriving DecidableEq, Repr

/-- Model of `StandingDialogComponent.calculateNetAmount`: expenses get
`net = gross / 1.2`, everything else copies the gross amount. -/
def StandingDialog.calculateNetAmount (t : DialogTxn) : DialogTxn :=
  if t.incomeExpenses = some "expense" then
    { t with net := t.gross.map (fun g => g / (1.2 : Rat)) }
  else
    { t with net := t.gross }

/-- Model of `StandingDialogComponent.calculateNextDueDate`: add one month
for 'monthly', three for 'quarterly', nothing otherwise, then re-pin the
start date's day of month. -/
def StandingDialog.calculateNextDueDate (interval : String) (startDate : JSDate) : JSDate :=
  let dueDate :=
    if interval = "monthly" then startDate.setMonth (startDate.month + 1)
    else if interval = "quarterly" then startDate.setMonth (startDate.month + 3)
    else startDate
  dueDate.setDate startDate.day

/-- Outcome of a standing-order submission: an early validation return, a
persistence call (`saveTransaction`), or a logged pending due date. -/
inductive DialogResult where
  | fieldsMissing
  | quarterMissing
  | persisted
  | pending
deriving DecidableEq, Repr

/-- Model of `StandingDialogComponent.addTransaction`: validate the required
fields, require a quarter label for quarterly orders, then persist exactly
when the current date has reached the computed next due date. -/
def StandingDialog.addTransaction (now : JSDate) (t : DialogTxn) : DialogResult :=
  if t.date.isSome = false ∨ truthyQ t.gross = false ∨ truthyStr t.description = false
      ∨ truthyStr t.incomeExpenses = false then
    DialogResult.fieldsMissing
  else if t.repeatInterval = "quarterly" ∧ truthyStr t.quarter = false then
    DialogResult.quarterMissing
  else
    let anchor := t.date.getD ⟨1970, 0, 1⟩
    let due := StandingDialog.calculateNextDueDate t.repeatInterval anchor
    if JSDate.le due now = true then DialogResult.persisted else DialogResult.pending

/-- C6, claim as stated, refuted at a concrete input: a monthly submission
whose description is missing is never persisted, even though its computed
next due date 2020-02-01 lies before the current date 2025-01-01. -/
theorem c6_counterexample :
    JSDate.le
        (StandingDialog.calculateNextDueDate "monthly" ⟨2020, 0, 1⟩) ⟨2025, 0, 1⟩ = true
      ∧ StandingDialog.addTransaction ⟨2025, 0, 1⟩
          ⟨some ⟨2020, 0, 1⟩, some 5, none, none, some "expense", "monthly", none⟩
        ≠ DialogResult.persisted := by
  decide

/-- C6 (amended): for a standing-order submission that passes field
validation (date present, gross truthy, description and income/expense kind
present, and a quarter label when quarterly), the transaction is persisted
if and only if the current date has reached the next due date computed from
the anchor date and the repeat interval; a future due date only logs the
pending date. -/
theorem c6_addTransaction (now : JSDate) (t : DialogTxn) (anchor : JSDate)
    (hdate : t.date = some anchor) (hg : truthyQ t.gross = true)
    (hd : truthyStr t.description = true) (hi : truthyStr t.incomeExpenses = true)
    (hq : t.repeatInterval = "quarterly" → truthyStr t.quarter = true) :
    (StandingDialog.addTransaction now t = DialogResult.persisted
        ↔ JSDate.le (StandingDialog.calculateNextDueDate t.repeatInterval anchor) now = true)
      ∧ (JSDate.le (StandingDialog.calculateNextDueDate t.repeatInterval anchor) now = false →
        StandingDialog.addTransaction now t = DialogResult.pending) := by
  have hguard1 : ¬(t.date.isSome = false ∨ truthyQ t.gross = false
      ∨ truthyStr t.description = false ∨ truthyStr t.incomeExpenses = false) := by
    simp [hdate, hg, hd, hi]
  have hguard2 : ¬(t.repeatInterval = "quarterly" ∧ truthyStr t.quarter = false) := by
    by_cases hqq : t.repeatInterval = "quarterly"
    · simp [hqq, hq hqq]
    · simp [hqq]
  unfold StandingDialog.addTransaction
  rw [if_neg hguard1, if_neg hguard2]
  simp only [hdate, Option.getD_some]
  by_cases hle : JSDate.le (StandingDialog.calculateNextDueDate t.repeatInterval anchor) now = true
  · simp [hle]
  · simp only [Bool.not_eq_true] at hle
    simp [hle]

/-- C6 witness: the amended theorem applied to a valid monthly submission
anchored 2020-01-01 and submitted on 2025-01-01, which is persisted. -/
theorem c6_witness :
    StandingDialog.addTransaction ⟨2025, 0, 1⟩
        ⟨some ⟨2020, 0, 1⟩, some 5, none, some "rent", some "expense", "monthly", none⟩
      = DialogResult.persisted := by
  have h := (c6_addTransaction ⟨2025, 0, 1⟩
    ⟨some ⟨2020, 0, 1⟩, some 5, none, some "rent", some "expense", "monthly", none⟩
    ⟨2020, 0, 1⟩ rfl (by decide) (by decide) (by decide)
    (by intro h; exact absurd h (by decide))).1
  exact h.mpr (by decide)

/-- C7: after `calculateNetAmount` runs, the net amount equals the gross
amount for non-expense transactions and `gross / 1.2` for expenses. -/
theorem c7_calculateNetAmount (t : DialogTxn) (g : Rat) (hg : t.gross = some g) :
    (t.incomeExpenses = some "expense" →
        (StandingDialog.calculateNetAmount t).net = some (g / (1.2 : Rat)))
      ∧ (t.incomeExpenses ≠ some "expense" →
        (StandingDialog.calculateNetAmount t).net = some g) := by
  constructor
  · intro h
    simp [StandingDialog.calculateNetAmount, h, hg]
  · intro h
    simp [StandingDialog.calculateNetAmount, h, hg]

/-- C7 witness: an expense of gross 12 gets net 10, and an income of gross
12 keeps net 12. -/
theorem c7_witness :
    (StandingDialog.calculateNetAmount
        ⟨none, some 12, none, none, some "expense", "", none⟩).net = some 10
      ∧ (StandingDialog.calculateNetAmount
        ⟨none, some 12, none, none, some "income", "", none⟩).net = some 12 := by
  constructor
  · have h := (c7_calculateNetAmount
      ⟨none, some 12, none, none, some "expense", "", none⟩ 12 rfl).1 rfl
    rw [h]
    norm_num
  · have h := (c7_calculateNetAmount
      ⟨none, some 12, none, none, some "income", "", none⟩ 12 rfl).2 (by decide)
    exact h

/-- C10: `calculateNextDueDate` leaves any interval other than 'monthly' and
'quarterly' at the anchor date (day re-pinned, which is the identity on a
valid date), so a yearly standing order whose anchor is not in the future is
persisted immediately on submission. -/
theorem c10_yearly_due_immediately :
    (∀ (interval : String) (d : JSDate), interval ≠ "monthly" → interval ≠ "quarterly" →
        StandingDialog.calculateNextDueDate interval d = d.setDate d.day)
      ∧ (∀ d : JSDate, d.Valid → StandingDialog.calculateNextDueDate "yearly" d = d)
      ∧ (∀ (now : JSDate) (t : DialogTxn) (anchor : JSDate), t.repeatInterval = "yearly" →
        t.date = some anchor → anchor.Valid → truthyQ t.gross = true →
        truthyStr t.description = true → truthyStr t.incomeExpenses = true →
        JSDate.le anchor now = true →
        StandingDialog.addTransaction now t = DialogResult.persisted) := by
  have key : ∀ (interval : String) (d : JSDate), interval ≠ "monthly" →
      interval ≠ "quarterly" →
      StandingDialog.calculateNextDueDate interval d = d.setDate d.day := by
    intro interval d h1 h2
    simp [StandingDialog.calculateNextDueDate, h1, h2]
  have key2 : ∀ d : JSDate, d.Valid → StandingDialog.calculateNextDueDate "yearly" d = d := by
    intro d hv
    rw [key "yearly" d (by decide) (by decide)]
    exact setDate_self d hv
  refine ⟨key, key2, ?_⟩
  intro now t anchor hint hdate hv hg hd hi hle
  have h := (c6_addTransaction now t anchor hdate hg hd hi
    (by intro h; rw [hint] at h; exact absurd h (by decide))).1
  apply h.mpr
  rw [hint, key2 anchor hv]
  exact hle

/-- C10 witness: a yearly standing order anchored 2024-05-10, submitted on
2024-05-10 itself, is persisted immediately. -/
theorem c10_witness :
    StandingDialog.addTransaction ⟨2024, 4, 10⟩
        ⟨some ⟨2024, 4, 10⟩, some 99, none, some "insurance", some "expense", "yearly", none⟩
      = DialogResult.persisted := by
  exact c10_yearly_due_immediately.2.2 ⟨2024, 4, 10⟩
    ⟨some ⟨2024, 4, 10⟩, some 99, none, some "insurance", some "expense", "yearly", none⟩
    ⟨2024, 4, 10⟩ rfl rfl (by decide) (by decide) (by decide) (by decide) (by decide)

/-! ### Decimal rendering and parsing of JavaScript numbers -/

/-- The character of a decimal digit (0–9). -/
def digitChar : Nat → Char
  | 0 => '0'
  | 1 => '1'
  | 2 => '2'
  | 3 => '3'
  | 4 => '4'
  | 5 => '5'
  | 6 => '6'
  | 7 => '7'
  | 8 => '8'
  | _ => '9'

/-- The decimal digit of a character in '0'–'9'. -/
def charDigit (c : Char) : Nat := c.toNat - 48

/-- Decimal-digit test, as JavaScript number parsing uses. -/
def isDigitChar (c : Char) : Bool := decide (48 ≤ c.toNat) && decide (c.toNat ≤ 57)

/-- Little-endian decimal digits of `n`, computed with explicit fuel so that
the kernel can evaluate it; any fuel of at least `n` is exact. -/
def natDigitsAux : Nat → Nat → List Nat
  | 0, _ => []
  | fuel + 1, n => if n = 0 then [] else n % 10 :: natDigitsAux fuel (n / 10)

/-- Little-endian decimal digits of `n`. -/
def natDigitsLE (n : Nat) : List Nat := natDigitsAux n n

theorem natDigitsAux_eq_digits :
    ∀ fuel n, n ≤ fuel → natDigitsAux fuel n = Nat.digits 10 n := by
  intro fuel
  induction fuel with
  | zero =>
      intro n h
      have : n = 0 := by omega
      subst this
      simp [natDigitsAux]
  | succ f ih =>
      intro n h
      unfold natDigitsAux
      by_cases hn : n = 0
      · simp [hn]
      · rw [if_neg hn]
        have hlt : n / 10 < n := Nat.div_lt_self (by omega) (by norm_num)
        rw [ih (n / 10) (by omega)]
        exact (Nat.digits_def' (by norm_num : (1 : ℕ) < 10) (by omega)).symm

theorem natDigitsLE_eq_digits (n : Nat) : natDigitsLE n = Nat.digits 10 n :=
  natDigitsAux_eq_digits n n le_rfl

/-- Big-endian character rendering of a natural number (`String(n)` for the
digit part, with `"0"` for zero). -/
def natDigitsStr (n : Nat) : List Char :=
  if n = 0 then ['0'] else ((natDigitsLE n).map digitChar).reverse

/-- Model of JavaScript decimal rendering `String(n)` of a natural number. -/
def natToStr (n : Nat) : String := String.mk (natDigitsStr n)

/-- Model of JavaScript decimal rendering of an integer. -/
def intToStr (i : Int) : String :=
  if i < 0 then String.mk ('-' :: natDigitsStr i.natAbs) else natToStr i.natAbs

/-- Value of a big-endian list of digit characters. -/
def digitsVal (cs : List Char) : Nat := Nat.ofDigits 10 ((cs.map charDigit).reverse)

theorem charDigit_digitChar (d : Nat) (h : d < 10) : charDigit (digitChar d) = d := by
  interval_cases d <;> decide

theorem isDigitChar_digitChar (d : Nat) (h : d < 10) : isDigitChar (digitChar d) = true := by
  interval_cases d <;> decide

theorem natDigitsStr_digits (n : Nat) : ∀ c ∈ natDigitsStr n, isDigitChar c = true := by
  intro c hc
  unfold natDigitsStr at hc
  by_cases hn : n = 0
  · simp [hn] at hc
    subst hc
    decide
  · rw [if_neg hn] at hc
    rw [List.mem_reverse, List.mem_map] at hc
    obtain ⟨d, hd, rfl⟩ := hc
    rw [natDigitsLE_eq_digits] at hd
    exact isDigitChar_digitChar d (Nat.digits_lt_base (by norm_num) hd)

theorem digitsVal_natDigitsStr (n : Nat) : digitsVal (natDigitsStr n) = n := by
  unfold digitsVal natDigitsStr
  by_cases hn : n = 0
  · subst hn
    decide
  · rw [if_neg hn, List.map_reverse, List.reverse_reverse, List.map_map]
    have hmap : (natDigitsLE n).map (charDigit ∘ digitChar) = (natDigitsLE n).map id := by
      apply List.map_congr_left
      intro d hd
      rw [natDigitsLE_eq_digits] at hd
      exact charDigit_digitChar d (Nat.digits_lt_base (by norm_num) hd)
    rw [hmap, List.map_id, natDigitsLE_eq_digits, Nat.ofDigits_digits]

/-- Model of JavaScript `parseFloat` restricted to plain decimal notation
(optional leading minus, digits, optional fraction part; trailing
non-numeric characters are ignored; `none` models `NaN`).  The dashboard
and report strings never use exponents or leading plus signs. -/
def parseFloatM (s : String) : Option Rat :=
  let cs := s.data
  let neg : Bool :=
    match cs with
    | c :: _ => if c = '-' then true else false
    | [] => false
  let cs1 := if neg = true then cs.tail else cs
  let ip := cs1.takeWhile isDigitChar
  let rest := cs1.dropWhile isDigitChar
  let fp :=
    match rest with
    | c :: t => if c = '.' then t.takeWhile isDigitChar else []
    | [] => []
  if ip = [] ∧ fp = [] then none
  else
    let v : Rat := (digitsVal ip : Rat) + (digitsVal fp : Rat) / (10 : Rat) ^ fp.length
    some (if neg then -v else v)

theorem takeWhile_all_append (p : Char → Bool) (l1 l2 : List Char) (x : Char)
    (h1 : ∀ c ∈ l1, p c = true) (hx : p x = false) :
    (l1 ++ x :: l2).takeWhile p = l1 := by
  induction l1 with
  | nil => simp [List.takeWhile, hx]
  | cons c cs ih =>
      simp only [List.cons_append, List.takeWhile]
      rw [h1 c (by simp)]
      simp only [List.cons.injEq, true_and]
      exact ih (fun d hd => h1 d (by simp [hd]))

theorem dropWhile_all_append (p : Char → Bool) (l1 l2 : List Char) (x : Char)
    (h1 : ∀ c ∈ l1, p c = true) (hx : p x = false) :
    (l1 ++ x :: l2).dropWhile p = x :: l2 := by
  induction l1 with
  | nil => simp [List.dropWhile, hx]
  | cons c cs ih =>
      simp only [List.cons_append, List.dropWhile]
      rw [h1 c (by simp)]
      exact ih (fun d hd => h1 d (by simp [hd]))

theorem takeWhile_all (p : Char → Bool) (l : List Char) (h : ∀ c ∈ l, p c = true) :
    l.takeWhile p = l := by
  induction l with
  | nil => simp
  | cons c cs ih =>
      simp only [List.takeWhile]
      rw [h c (by simp)]
      simp only [List.cons.injEq, true_and]
      exact ih (fun d hd => h d (by simp [hd]))

theorem isDigitChar_ne_minus (c : Char) (h : isDigitChar c = true) : (c = '-') = False := by
  simp only [eq_iff_iff, iff_false]
  intro he
  rw [he] at h
  exact absurd h (by decide)

theorem isDigitChar_ne_dot (c : Char) (h : isDigitChar c = true) : (c = '.') = False := by
  simp only [eq_iff_iff, iff_false]
  intro he
  rw [he] at h
  exact absurd h (by decide)

theorem isDigitChar_ne_comma (c : Char) (h : isDigitChar c = true) : (c = ',') = False := by
  simp only [eq_iff_iff, iff_false]
  intro he
  rw [he] at h
  exact absurd h (by decide)

theorem parseFloatM_pos_canonical (ip fp : List Char)
    (hip : ∀ c ∈ ip, isDigitChar c = true) (hfp : ∀ c ∈ fp, isDigitChar c = true)
    (c0 : Char) (ip' : List Char) (hcons : ip = c0 :: ip') :
    parseFloatM (String.mk (ip ++ '.' :: fp))
      = some ((digitsVal ip : Rat) + (digitsVal fp : Rat) / (10 : Rat) ^ fp.length) := by
  subst hcons
  have hc0 : isDigitChar c0 = true := hip c0 (by simp)
  have ht : List.takeWhile isDigitChar (c0 :: (ip' ++ '.' :: fp)) = c0 :: ip' := by
    have h := takeWhile_all_append isDigitChar (c0 :: ip') fp '.' hip (by decide)
    simpa using h
  have hd : List.dropWhile isDigitChar (c0 :: (ip' ++ '.' :: fp)) = '.' :: fp := by
    have h := dropWhile_all_append isDigitChar (c0 :: ip') fp '.' hip (by decide)
    simpa using h
  have hf : List.takeWhile isDigitChar fp = fp := takeWhile_all isDigitChar fp hfp
  unfold parseFloatM
  simp [isDigitChar_ne_minus c0 hc0, ht, hd, hf]

theorem parseFloatM_neg_canonical (ip fp : List Char)
    (hip : ∀ c ∈ ip, isDigitChar c = true) (hfp : ∀ c ∈ fp, isDigitChar c = true)
    (c0 : Char) (ip' : List Char) (hcons : ip = c0 :: ip') :
    parseFloatM (String.mk ('-' :: (ip ++ '.' :: fp)))
      = some (-((digitsVal ip : Rat) + (digitsVal fp : Rat) / (10 : Rat) ^ fp.length)) := by
  subst hcons
  have ht : List.takeWhile isDigitChar (c0 :: (ip' ++ '.' :: fp)) = c0 :: ip' := by
    have h := takeWhile_all_append isDigitChar (c0 :: ip') fp '.' hip (by decide)
    simpa using h
  have hd : List.dropWhile isDigitChar (c0 :: (ip' ++ '.' :: fp)) = '.' :: fp := by
    have h := dropWhile_all_append isDigitChar (c0 :: ip') fp '.' hip (by decide)
    simpa using h
  have hf : List.takeWhile isDigitChar fp = fp := takeWhile_all isDigitChar fp hfp
  unfold parseFloatM
  simp [ht, hd, hf]

/-- Thousands grouping of a reversed (little-endian) digit string: a dot is
inserted before every further group of three digits. -/
def group3Aux : Nat → List Char → List Char
  | _, [] => []
  | 0, c :: cs => '.' :: c :: group3Aux 2 cs
  | k + 1, c :: cs => c :: group3Aux k cs

/-- German-locale thousands grouping of a big-endian digit string. -/
def groupThousands (ds : List Char) : List Char := (group3Aux 3 ds.reverse).reverse

/-- Two-digit zero-padded rendering of a value below 100 (the fraction part
of `toLocaleString` with two fraction digits). -/
def pad2 (n : Nat) : List Char := if n < 10 then ['0', digitChar n] else natDigitsStr n

/-- Model of `Number.prototype.toLocaleString('de-DE', { minimumFractionDigits: 2,
maximumFractionDigits: 2 })`: round to cents (ties away from zero), group
the euro digits with dots, separate the two cent digits with a comma. -/
def toLocaleDE (q : Rat) : String :=
  let cents : Nat := (⌊|q| * 100 + 1 / 2⌋).toNat
  let body : List Char := groupThousands (natDigitsStr (cents / 100)) ++ ',' :: pad2 (cents % 100)
  if q < 0 then String.mk ('-' :: body) else String.mk body

/-- Model of `DashboardComponent.formatAmount`: `NaN` formats as "0,00";
negative amounts drop the locale minus sign and get a "- " prefix. -/
def DashboardComponent.formatAmount (o : Option Rat) : String :=
  match o with
  | none => "0,00"
  | some q =>
      let s := toLocaleDE q
      if q < 0 then String.mk ('-' :: ' ' :: s.data.tail) else s

/-- Removal of all thousands separators, `amount.replace(/\./g, '')`. -/
def stripDots (cs : List Char) : List Char := cs.filter (fun c => decide (c ≠ '.'))

/-- Replacement of the first comma by a decimal point, `amount.replace(',', '.')`
(the string pattern form of `replace` only replaces the first occurrence). -/
def replaceFirstComma : List Char → List Char
  | [] => []
  | c :: cs => if c = ',' then '.' :: cs else c :: replaceFirstComma cs

/-- Model of `DashboardComponent.parseFormattedAmount`. -/
def DashboardComponent.parseFormattedAmount (s : String) : Option Rat :=
  parseFloatM (String.mk (replaceFirstComma (stripDots s.data)))

/-- Model of `DashboardComponent.updateSaldo`, as a function from the two
formatted totals to the formatted balance (`NaN` propagates through the
subtraction). -/
def DashboardComponent.updateSaldo (totalIncome totalExpenses : String) : String :=
  let income := DashboardComponent.parseFormattedAmount totalIncome
  let expenses := DashboardComponent.parseFormattedAmount totalExpenses
  let saldo : Option Rat :=
    match income, expenses with
    | some i, some e => some (i - e)
    | _, _ => none
  DashboardComponent.formatAmount saldo

theorem filter_group3Aux (l : List Char) (h : ∀ c ∈ l, (c = '.') = False) :
    ∀ k, (group3Aux k l).filter (fun c => decide (c ≠ '.')) = l := by
  induction l with
  | nil => intro k; cases k <;> simp [group3Aux]
  | cons c cs ih =>
      intro k
      have hc : (c = '.') = False := h c (by simp)
      have hcs : ∀ d ∈ cs, (d = '.') = False := fun d hd => h d (by simp [hd])
      cases k with
      | zero =>
          simp only [group3Aux]
          simp [hc]
          simpa using ih hcs 2
      | succ k =>
          simp only [group3Aux]
          simp [hc]
          simpa using ih hcs k

theorem stripDots_groupThousands (ds : List Char) (h : ∀ c ∈ ds, (c = '.') = False) :
    stripDots (groupThousands ds) = ds := by
  unfold stripDots groupThousands
  rw [List.filter_reverse, filter_group3Aux ds.reverse (fun c hc => h c (by
    rw [List.mem_reverse] at hc
    exact hc)) 3, List.reverse_reverse]

theorem replaceFirstComma_append (l1 l2 : List Char) (h : ∀ c ∈ l1, (c = ',') = False) :
    replaceFirstComma (l1 ++ ',' :: l2) = l1 ++ '.' :: l2 := by
  induction l1 with
  | nil => simp [replaceFirstComma]
  | cons c cs ih =>
      simp only [List.cons_append, replaceFirstComma, h c (by simp)]
      simp only [if_false, List.append_eq]
      rw [ih (fun d hd => h d (by simp [hd]))]

theorem digitsVal_pad2 (n : Nat) (h : n < 100) :
    digitsVal (pad2 n) = n ∧ (pad2 n).length = 2 := by
  unfold pad2
  by_cases h10 : n < 10
  · rw [if_pos h10]
    constructor
    · simp [digitsVal, Nat.ofDigits_cons, Nat.ofDigits_nil, charDigit_digitChar n h10]
      decide
    · rfl
  · rw [if_neg h10]
    refine ⟨digitsVal_natDigitsStr n, ?_⟩
    unfold natDigitsStr
    rw [if_neg (by omega)]
    rw [List.length_reverse, List.length_map, natDigitsLE_eq_digits]
    have e1 : (10 : ℕ) ^ 1 = 10 := by norm_num
    have e2 : (10 : ℕ) ^ (1 + 1) = 100 := by norm_num
    have hlog : Nat.log 10 n = 1 := by
      apply Nat.log_eq_of_pow_le_of_lt_pow
      · rw [e1]; omega
      · rw [e2]; omega
    rw [Nat.digits_len 10 n (by norm_num) (by omega), hlog]

theorem pad2_digits (n : Nat) (h : n < 100) : ∀ c ∈ pad2 n, isDigitChar c = true := by
  intro c hc
  unfold pad2 at hc
  by_cases h10 : n < 10
  · rw [if_pos h10] at hc
    simp at hc
    rcases hc with rfl | rfl
    · decide
    · exact isDigitChar_digitChar n h10
  · rw [if_neg h10] at hc
    exact natDigitsStr_digits n c hc

theorem natDigitsStr_ne_nil (n : Nat) : natDigitsStr n ≠ [] := by
  unfold natDigitsStr
  by_cases hn : n = 0
  · simp [hn]
  · rw [if_neg hn]
    simp only [ne_eq, List.reverse_eq_nil_iff, List.map_eq_nil_iff]
    rw [natDigitsLE_eq_digits]
    exact Nat.digits_ne_nil_iff_ne_zero.mpr hn

theorem floor_natCast_add_half (n : Nat) : (⌊(n : Rat) + 1 / 2⌋) = n := by
  rw [Int.floor_eq_iff]
  constructor
  · push_cast
    linarith
  · push_cast
    linarith

theorem cents_of_div100 (c : Int) :
    (⌊|(c : Rat) / 100| * 100 + 1 / 2⌋).toNat = c.natAbs := by
  have h1 : |(c : Rat) / 100| * 100 = (c.natAbs : Rat) := by
    rw [abs_div]
    rw [show |(100 : Rat)| = 100 by norm_num]
    rw [div_mul_cancel₀ _ (by norm_num : (100 : Rat) ≠ 0)]
    rw [Int.cast_natAbs]
    push_cast
    rfl
  rw [h1, floor_natCast_add_half]
  rfl

theorem div100_neg_iff (c : Int) : ((c : Rat) / 100 < 0) ↔ c < 0 := by
  constructor
  · intro h
    rw [div_neg_iff] at h
    rcases h with ⟨_, h2⟩ | ⟨h1, _⟩
    · norm_num at h2
    · exact_mod_cast h1
  · intro h
    apply div_neg_of_neg_of_pos
    · exact_mod_cast h
    · norm_num

theorem stripDots_no_dots (l : List Char) (h : ∀ c ∈ l, (c = '.') = False) :
    stripDots l = l := by
  unfold stripDots
  rw [List.filter_eq_self]
  intro c hc
  simp [h c hc]

theorem toLocaleDE_data (c : Int) :
    (toLocaleDE ((c : Rat) / 100)).data
      = (if c < 0 then ['-'] else [])
          ++ (groupThousands (natDigitsStr (c.natAbs / 100))
              ++ ',' :: pad2 (c.natAbs % 100)) := by
  unfold toLocaleDE
  rw [cents_of_div100]
  by_cases hc : c < 0
  · rw [if_pos ((div100_neg_iff c).mpr hc), if_pos hc]
    rfl
  · rw [if_neg (fun hh => hc ((div100_neg_iff c).mp hh)), if_neg hc]
    rfl

theorem parseFormattedAmount_toLocaleDE (c : Int) :
    DashboardComponent.parseFormattedAmount (toLocaleDE ((c : Rat) / 100))
      = some ((c : Rat) / 100) := by
  have hmodlt : c.natAbs % 100 < 100 := Nat.mod_lt _ (by norm_num)
  have hdds : ∀ d ∈ natDigitsStr (c.natAbs / 100), isDigitChar d = true :=
    natDigitsStr_digits (c.natAbs / 100)
  have hpds : ∀ d ∈ pad2 (c.natAbs % 100), isDigitChar d = true :=
    pad2_digits (c.natAbs % 100) hmodlt
  have hdd : ∀ d ∈ natDigitsStr (c.natAbs / 100), (d = '.') = False :=
    fun d hd => isDigitChar_ne_dot d (hdds d hd)
  have hdc : ∀ d ∈ natDigitsStr (c.natAbs / 100), (d = ',') = False :=
    fun d hd => isDigitChar_ne_comma d (hdds d hd)
  have hstrip1 : stripDots (groupThousands (natDigitsStr (c.natAbs / 100)))
      = natDigitsStr (c.natAbs / 100) := stripDots_groupThousands _ hdd
  have hstrip2 : stripDots (',' :: pad2 (c.natAbs % 100)) = ',' :: pad2 (c.natAbs % 100) := by
    apply stripDots_no_dots
    intro d hd
    rcases List.mem_cons.mp hd with rfl | hd2
    · simp only [eq_iff_iff, iff_false]
      decide
    · exact isDigitChar_ne_dot d (hpds d hd2)
  have hrep : replaceFirstComma
      (natDigitsStr (c.natAbs / 100) ++ ',' :: pad2 (c.natAbs % 100))
      = natDigitsStr (c.natAbs / 100) ++ '.' :: pad2 (c.natAbs % 100) :=
    replaceFirstComma_append _ _ hdc
  obtain ⟨d0, ds', hds⟩ : ∃ d0 ds', natDigitsStr (c.natAbs / 100) = d0 :: ds' := by
    rcases hne : natDigitsStr (c.natAbs / 100) with _ | ⟨d0, ds'⟩
    · exact absurd hne (natDigitsStr_ne_nil _)
    · exact ⟨d0, ds', rfl⟩
  have hvals : (digitsVal (natDigitsStr (c.natAbs / 100)) : Rat)
      + (digitsVal (pad2 (c.natAbs % 100)) : Rat) / (10 : Rat) ^ (pad2 (c.natAbs % 100)).length
      = (c.natAbs : Rat) / 100 := by
    rw [digitsVal_natDigitsStr, (digitsVal_pad2 _ hmodlt).1, (digitsVal_pad2 _ hmodlt).2]
    have hnm : 100 * (c.natAbs / 100) + c.natAbs % 100 = c.natAbs := Nat.div_add_mod _ 100
    have hcast : ((c.natAbs / 100 : Nat) : Rat) * 100 + ((c.natAbs % 100 : Nat) : Rat)
        = (c.natAbs : Rat) := by
      exact_mod_cast (by omega : (c.natAbs / 100) * 100 + c.natAbs % 100 = c.natAbs)
    rw [show ((10 : Rat) ^ (2 : Nat)) = 100 by norm_num]
    field_simp
    linarith
  unfold DashboardComponent.parseFormattedAmount
  rw [toLocaleDE_data c]
  by_cases hc : c < 0
  · rw [if_pos hc]
    simp only [List.cons_append, List.nil_append, List.singleton_append]
    have hstrip : stripDots ('-' :: (groupThousands (natDigitsStr (c.natAbs / 100))
        ++ ',' :: pad2 (c.natAbs % 100)))
        = '-' :: (natDigitsStr (c.natAbs / 100) ++ ',' :: pad2 (c.natAbs % 100)) := by
      unfold stripDots
      rw [List.filter_cons_of_pos (by decide), List.filter_append]
      unfold stripDots at hstrip1 hstrip2
      rw [hstrip1, hstrip2]
    rw [hstrip]
    have hrep2 : replaceFirstComma ('-' :: (natDigitsStr (c.natAbs / 100)
        ++ ',' :: pad2 (c.natAbs % 100)))
        = '-' :: (natDigitsStr (c.natAbs / 100) ++ '.' :: pad2 (c.natAbs % 100)) := by
      show replaceFirstComma (('-' :: natDigitsStr (c.natAbs / 100))
          ++ ',' :: pad2 (c.natAbs % 100)) = _
      rw [replaceFirstComma_append _ _ (by
        intro d hd
        rcases List.mem_cons.mp hd with rfl | hd2
        · simp only [eq_iff_iff, iff_false]
          decide
        · exact isDigitChar_ne_comma d (hdds d hd2))]
      rfl
    rw [hrep2]
    rw [parseFloatM_neg_canonical _ _ hdds hpds d0 ds' hds]
    rw [hvals]
    congr 1
    have habs : (c.natAbs : Rat) = -(c : Rat) := by
      rw [Int.cast_natAbs, abs_of_neg hc]
      push_cast
      ring
    rw [habs]
    ring
  · rw [if_neg hc]
    simp only [List.nil_append]
    have hstrip : stripDots (groupThousands (natDigitsStr (c.natAbs / 100))
        ++ ',' :: pad2 (c.natAbs % 100))
        = natDigitsStr (c.natAbs / 100) ++ ',' :: pad2 (c.natAbs % 100) := by
      unfold stripDots
      rw [List.filter_append]
      unfold stripDots at hstrip1 hstrip2
      rw [hstrip1, hstrip2]
    rw [hstrip, hrep]
    rw [parseFloatM_pos_canonical _ _ hdds hpds d0 ds' hds]
    rw [hvals]
    congr 1
    have habs : (c.natAbs : Rat) = (c : Rat) := by
      rw [Int.cast_natAbs, abs_of_nonneg (by omega : (0 : Int) ≤ c)]
    rw [habs]

theorem toLocaleDE_neg (q : Rat) (h : q < 0) :
    toLocaleDE q = String.mk ('-' :: (toLocaleDE (-q)).data) := by
  unfold toLocaleDE
  rw [abs_neg, if_pos h, if_neg (by linarith : ¬ (-q < 0))]

theorem c8_saldo_general (a b : Int) :
    DashboardComponent.updateSaldo (toLocaleDE ((a : Rat) / 100))
        (toLocaleDE ((b : Rat) / 100))
      = if b ≤ a then toLocaleDE (((a - b : Int) : Rat) / 100)
        else String.mk ('-' :: ' ' :: (toLocaleDE (((b - a : Int) : Rat) / 100)).data) := by
  unfold DashboardComponent.updateSaldo
  rw [parseFormattedAmount_toLocaleDE a, parseFormattedAmount_toLocaleDE b]
  show DashboardComponent.formatAmount (some ((a : Rat) / 100 - (b : Rat) / 100)) = _
  have hdiff : (a : Rat) / 100 - (b : Rat) / 100 = ((a - b : Int) : Rat) / 100 := by
    push_cast
    ring
  rw [hdiff]
  simp only [DashboardComponent.formatAmount]
  by_cases hlt : a - b < 0
  · rw [if_pos ((div100_neg_iff _).mpr hlt), if_neg (by omega : ¬ b ≤ a)]
    have hq : ((a - b : Int) : Rat) / 100 < 0 := (div100_neg_iff _).mpr hlt
    rw [toLocaleDE_neg _ hq]
    have hmag : -(((a - b : Int) : Rat) / 100) = ((b - a : Int) : Rat) / 100 := by
      push_cast
      ring
    rw [hmag]
    rfl
  · rw [if_neg (fun hh => hlt ((div100_neg_iff _).mp hh)), if_pos (by omega : b ≤ a)]

/-- C8: the dashboard parses each German-locale total by stripping dots and
turning the comma into a point, computes `balance = income − expenses`
exactly, and reformats in the same locale, rendering a negative balance as
"- " followed by its magnitude; in particular totals "100,00" and "40,00"
produce the balance "60,00". -/
theorem c8_updateSaldo_locale :
    (∀ a b : Int,
        DashboardComponent.updateSaldo (toLocaleDE ((a : Rat) / 100))
            (toLocaleDE ((b : Rat) / 100))
          = if b ≤ a then toLocaleDE (((a - b : Int) : Rat) / 100)
            else String.mk ('-' :: ' ' :: (toLocaleDE (((b - a : Int) : Rat) / 100)).data))
      ∧ DashboardComponent.updateSaldo "100,00" "40,00" = "60,00" := by
  refine ⟨c8_saldo_general, ?_⟩
  have h1 : toLocaleDE (((10000 : Int) : Rat) / 100) = "100,00" := by
    apply String.ext
    rw [toLocaleDE_data]
    decide
  have h2 : toLocaleDE (((4000 : Int) : Rat) / 100) = "40,00" := by
    apply String.ext
    rw [toLocaleDE_data]
    decide
  have h3 : toLocaleDE (((6000 : Int) : Rat) / 100) = "60,00" := by
    apply String.ext
    rw [toLocaleDE_data]
    decide
  have hgen := c8_saldo_general 10000 4000
  rw [h1, h2] at hgen
  rw [hgen, if_pos (by norm_num)]
  rw [show ((10000 : Int) - 4000 : Int) = 6000 by norm_num]
  exact h3

/-! ### The Firestore transaction service (`transaction-service.component.ts`) -/

/-- A transaction document as stored in the `transactions` collection (the
fields the counter logic reads; `docId` is the composite Firestore id). -/
structure StoredTxn where
  docId : String
  userId : String
  documentNumber : String
deriving DecidableEq, Repr

/-- The Firestore state the service reads and writes: the per-user
`transactionCounters` collection and the `transactions` collection. -/
structure FirestoreState where
  counters : List (String × Int)
  transactions : List StoredTxn
deriving DecidableEq, Repr

/-- Lookup of a user's counter document. -/
def lookupCounter : List (String × Int) → String → Option Int
  | [], _ => none
  | (k, v) :: rest, uid => if k = uid then some v else lookupCounter rest uid

/-- Write of a user's counter document (`set` with merge). -/
def setCounter : List (String × Int) → String → Int → List (String × Int)
  | [], uid, v => [(uid, v)]
  | (k, w) :: rest, uid, v =>
      if k = uid then (k, v) :: rest else (k, w) :: setCounter rest uid v

/-- The fields of a `TransactionEntry` that `addTransaction` validates. -/
structure ServiceTxn where
  date : Option String
  gross : Option Rat
  net : Option Rat
  description : Option String
  incomeExpenses : Option String
  category : Option String
deriving DecidableEq, Repr

/-- The required-field check of `addTransaction` (negation of
`!date || gross == null || net == null || !description || !incomeExpenses`). -/
def serviceTxnValid (t : ServiceTxn) : Bool :=
  truthyStr t.date && decide (t.gross ≠ none) && decide (t.net ≠ none)
    && truthyStr t.description && truthyStr t.incomeExpenses

/-- Model of `TransactionServiceComponent.addTransaction`: read the user's
counter (0 when absent), increment and write it back, then validate the
required fields — erroring after the counter write — and finally store the
transaction under the composite id. -/
def TransactionServiceComponent.addTransaction (fs : FirestoreState) (userId : String)
    (t : ServiceTxn) : FirestoreState × Except String Int :=
  let currentCounter := (lookupCounter fs.counters userId).getD 0
  let documentNumber := currentCounter + 1
  let fs1 : FirestoreState := { fs with counters := setCounter fs.counters userId documentNumber }
  if serviceTxnValid t = false then
    (fs1, Except.error "Transaction has undefined or null fields")
  else
    let docId := userId ++ "_" ++ intToStr documentNumber
    ({ fs1 with
        transactions := fs1.transactions ++ [⟨docId, userId, intToStr documentNumber⟩] },
      Except.ok documentNumber)

/-- Model of `TransactionServiceComponent.deleteTransaction`: delete the
document with the composite id, then reset the user's counter to 0 when no
transactions remain for that user. -/
def TransactionServiceComponent.deleteTransaction (fs : FirestoreState) (userId : String)
    (documentNumber : String) : FirestoreState :=
  let docId := userId ++ "_" ++ documentNumber
  let remaining := fs.transactions.filter (fun tx => decide (tx.docId ≠ docId))
  if (remaining.filter (fun tx => decide (tx.userId = userId))).isEmpty then
    { counters := setCounter fs.counters userId 0, transactions := remaining }
  else
    { fs with transactions := remaining }

theorem lookupCounter_setCounter (cs : List (String × Int)) (uid : String) (v : Int) :
    lookupCounter (setCounter cs uid v) uid = some v := by
  induction cs with
  | nil => simp [setCounter, lookupCounter]
  | cons p rest ih =>
      obtain ⟨k, w⟩ := p
      by_cases hk : k = uid
      · simp [setCounter, lookupCounter, hk]
      · simp [setCounter, lookupCounter, hk, ih]

/-- C2: when a deletion leaves a user without transactions, the stored
counter is reset to 0 and the next valid `addTransaction` call assigns
document number 1; in general `addTransaction` assigns the stored counter
plus one and writes the incremented counter back. -/
theorem c2_delete_resets_counter (fs : FirestoreState) (uid dn : String)
    (hempty : ((TransactionServiceComponent.deleteTransaction fs uid dn).transactions.filter
        (fun tx => decide (tx.userId = uid))).isEmpty = true) :
    lookupCounter (TransactionServiceComponent.deleteTransaction fs uid dn).counters uid
        = some 0
      ∧ (∀ t : ServiceTxn, serviceTxnValid t = true →
        (TransactionServiceComponent.addTransaction
            (TransactionServiceComponent.deleteTransaction fs uid dn) uid t).2 = Except.ok 1)
      ∧ (∀ (fs' : FirestoreState) (t : ServiceTxn),
        lookupCounter (TransactionServiceComponent.addTransaction fs' uid t).1.counters uid
            = some ((lookupCounter fs'.counters uid).getD 0 + 1)
          ∧ (serviceTxnValid t = true →
            (TransactionServiceComponent.addTransaction fs' uid t).2
              = Except.ok ((lookupCounter fs'.counters uid).getD 0 + 1))) := by
  have hcnt : lookupCounter
      (TransactionServiceComponent.deleteTransaction fs uid dn).counters uid = some 0 := by
    unfold TransactionServiceComponent.deleteTransaction at hempty ⊢
    by_cases hif : ((fs.transactions.filter
        (fun tx => decide (tx.docId ≠ uid ++ "_" ++ dn))).filter
        (fun tx => decide (tx.userId = uid))).isEmpty = true
    · rw [if_pos hif]
      exact lookupCounter_setCounter fs.counters uid 0
    · rw [if_neg hif] at hempty
      exact absurd hempty hif
  refine ⟨hcnt, ?_, ?_⟩
  · intro t ht
    unfold TransactionServiceComponent.addTransaction
    rw [hcnt]
    simp [ht]
  · intro fs' t
    constructor
    · unfold TransactionServiceComponent.addTransaction
      by_cases ht : serviceTxnValid t = false
      · simp only [ht, if_pos]
        exact lookupCounter_setCounter fs'.counters uid _
      · simp only [ht, if_neg, Bool.false_eq_true, if_false]
        exact lookupCounter_setCounter fs'.counters uid _
    · intro ht
      unfold TransactionServiceComponent.addTransaction
      simp [ht]

/-- C2 witness: deleting the only transaction of user "u" resets the counter
to 0, and a following valid addition is assigned document number 1. -/
theorem c2_witness :
    lookupCounter (TransactionServiceComponent.deleteTransaction
        ⟨[("u", 5)], [⟨"u_5", "u", "5"⟩]⟩ "u" "5").counters "u" = some 0
      ∧ (TransactionServiceComponent.addTransaction
          (TransactionServiceComponent.deleteTransaction
            ⟨[("u", 5)], [⟨"u_5", "u", "5"⟩]⟩ "u" "5") "u"
          ⟨some "2024-01-01", some 5, some 5, some "rent", some "expense", none⟩).2
        = Except.ok 1 := by
  have h := c2_delete_resets_counter ⟨[("u", 5)], [⟨"u_5", "u", "5"⟩]⟩ "u" "5" (by decide)
  exact ⟨h.1, h.2.1 ⟨some "2024-01-01", some 5, some 5, some "rent", some "expense", none⟩
    (by decide)⟩

/-- C9: `addTransaction` writes the incremented counter back before the
required-field validation, so an invalid transaction errors with
'Transaction has undefined or null fields' while the counter has already
advanced and no transaction was stored; the next successful addition gets
the original counter plus two, skipping a document number. -/
theorem c9_counter_advances_on_invalid (fs : FirestoreState) (uid : String) (t : ServiceTxn)
    (hbad : serviceTxnValid t = false) :
    (TransactionServiceComponent.addTransaction fs uid t).2
        = Except.error "Transaction has undefined or null fields"
      ∧ (TransactionServiceComponent.addTransaction fs uid t).1.transactions = fs.transactions
      ∧ lookupCounter (TransactionServiceComponent.addTransaction fs uid t).1.counters uid
          = some ((lookupCounter fs.counters uid).getD 0 + 1)
      ∧ (∀ t2 : ServiceTxn, serviceTxnValid t2 = true →
        (TransactionServiceComponent.addTransaction
            (TransactionServiceComponent.addTransaction fs uid t).1 uid t2).2
          = Except.ok ((lookupCounter fs.counters uid).getD 0 + 2)) := by
  refine ⟨?_, ?_, ?_, ?_⟩
  · unfold TransactionServiceComponent.addTransaction
    simp [hbad]
  · unfold TransactionServiceComponent.addTransaction
    simp [hbad]
  · unfold TransactionServiceComponent.addTransaction
    simp only [hbad, if_pos]
    exact lookupCounter_setCounter fs.counters uid _
  · intro t2 ht2
    set fs2 := (TransactionServiceComponent.addTransaction fs uid t).1 with hfs2
    have hcnt : lookupCounter fs2.counters uid
        = some ((lookupCounter fs.counters uid).getD 0 + 1) := by
      rw [hfs2]
      unfold TransactionServiceComponent.addTransaction
      simp only [hbad, if_pos]
      exact lookupCounter_setCounter fs.counters uid _
    unfold TransactionServiceComponent.addTransaction
    rw [hcnt]
    simp [ht2]
    omega

/-- C9 witness: on an empty store, adding a transaction with no description
errors while advancing the counter, and the next valid addition is assigned
document number 2 (number 1 is skipped). -/
theorem c9_witness :
    (TransactionServiceComponent.addTransaction ⟨[], []⟩ "u"
        ⟨some "2024-01-01", some 5, some 5, none, some "income", none⟩).2
        = Except.error "Transaction has undefined or null fields"
      ∧ (TransactionServiceComponent.addTransaction
          (TransactionServiceComponent.addTransaction ⟨[], []⟩ "u"
            ⟨some "2024-01-01", some 5, some 5, none, some "income", none⟩).1 "u"
          ⟨some "2024-01-01", some 5, some 5, some "rent", some "income", none⟩).2
        = Except.ok 2 := by
  have h := c9_counter_advances_on_invalid ⟨[], []⟩ "u"
    ⟨some "2024-01-01", some 5, some 5, none, some "income", none⟩ (by decide)
  refine ⟨h.1, ?_⟩
  have h2 := h.2.2.2 ⟨some "2024-01-01", some 5, some 5, some "rent", some "income", none⟩
    (by decide)
  simpa using h2

/-! ### The reports component (`reports.component.ts`) -/

theorem digitsVal_value (n : Nat) :
    (digitsVal (natDigitsStr (n / 100)) : Rat)
      + (digitsVal (pad2 (n % 100)) : Rat) / (10 : Rat) ^ (pad2 (n % 100)).length
      = (n : Rat) / 100 := by
  have hmodlt : n % 100 < 100 := Nat.mod_lt _ (by norm_num)
  rw [digitsVal_natDigitsStr, (digitsVal_pad2 _ hmodlt).1, (digitsVal_pad2 _ hmodlt).2]
  have hcast : ((n / 100 : Nat) : Rat) * 100 + ((n % 100 : Nat) : Rat) = (n : Rat) := by
    exact_mod_cast (by omega : (n / 100) * 100 + n % 100 = n)
  rw [show ((10 : Rat) ^ (2 : Nat)) = 100 by norm_num]
  field_simp
  linarith

/-- Model of `Number.prototype.toFixed(2)`: round to cents (ties away from
zero on the magnitude), render with a decimal point and two fraction
digits. -/
def jsToFixed2 (q : Rat) : String :=
  let cents : Nat := (⌊|q| * 100 + 1 / 2⌋).toNat
  let body : List Char := natDigitsStr (cents / 100) ++ '.' :: pad2 (cents % 100)
  if q < 0 then String.mk ('-' :: body) else String.mk body

/-- The numeric value printed by `toFixed(2)`: the input rounded to cent
precision. -/
def round2 (q : Rat) : Rat :=
  if q < 0 then -(((⌊|q| * 100 + 1 / 2⌋).toNat : Rat) / 100)
  else ((⌊|q| * 100 + 1 / 2⌋).toNat : Rat) / 100

theorem parseFloatM_jsToFixed2 (q : Rat) :
    parseFloatM (jsToFixed2 q) = some (round2 q) := by
  set n : Nat := (⌊|q| * 100 + 1 / 2⌋).toNat with hn
  have hmodlt : n % 100 < 100 := Nat.mod_lt _ (by norm_num)
  have hdds : ∀ d ∈ natDigitsStr (n / 100), isDigitChar d = true := natDigitsStr_digits _
  have hpds : ∀ d ∈ pad2 (n % 100), isDigitChar d = true := pad2_digits _ hmodlt
  obtain ⟨d0, ds', hds⟩ : ∃ d0 ds', natDigitsStr (n / 100) = d0 :: ds' := by
    rcases hne : natDigitsStr (n / 100) with _ | ⟨d0, ds'⟩
    · exact absurd hne (natDigitsStr_ne_nil _)
    · exact ⟨d0, ds', rfl⟩
  unfold jsToFixed2 round2
  rw [← hn]
  by_cases hq : q < 0
  · rw [if_pos hq, if_pos hq]
    rw [parseFloatM_neg_canonical _ _ hdds hpds d0 ds' hds]
    rw [digitsVal_value n]
  · rw [if_neg hq, if_neg hq]
    rw [parseFloatM_pos_canonical _ _ hdds hpds d0 ds' hds]
    rw [digitsVal_value n]

/-- The fields of a transaction that the report calculations read (`gross`
holds the `parseFloat` result, `none` standing for a missing or
non-numeric value). -/
structure ReportTxn where
  date : Option String
  description : Option String
  gross : Option Rat
  incomeExpenses : Option String
  category : Option String
deriving DecidableEq, Repr

/-- The grouping key of `calculateCategories`:
`transaction.category || translate.instant('OTHER')`. -/
def categoryKey (t : ReportTxn) : String :=
  match t.category with
  | some s => if s = "" then "OTHER" else s
  | none => "OTHER"

/-- One step of the `reduce` accumulator: add the amount to the category's
entry, inserting it on first occurrence (object key order is insertion
order). -/
def upsertAmount : List (String × Rat) → String → Rat → List (String × Rat)
  | [], k, v => [(k, v)]
  | (k', v') :: rest, k, v =>
      if k' = k then (k', v' + v) :: rest else (k', v') :: upsertAmount rest k v

/-- The `categoryTotals` record built by `calculateCategories`. -/
def categoryTotals (txs : List ReportTxn) : List (String × Rat) :=
  txs.foldl (fun acc t => upsertAmount acc (categoryKey t) (t.gross.getD 0)) []

/-- Model of `ReportsComponent.calculateCategories`: group the gross amounts
by category and render each total as `'€ ' + amount.toFixed(2)`. -/
def ReportsComponent.calculateCategories (txs : List ReportTxn) : List (String × String) :=
  (categoryTotals txs).map (fun p => (p.1, String.mk ('€' :: ' ' :: (jsToFixed2 p.2).data)))

/-- Model of `ReportsComponent.formatAmount`: prefix the Euro sign, putting
a space between the minus sign and a negative amount. -/
def ReportsComponent.formatAmount (amount : String) : String :=
  match amount.data with
  | '-' :: rest => String.mk ('€' :: ' ' :: '-' :: ' ' :: rest)
  | _ => String.mk ('€' :: ' ' :: amount.data)

/-- Sum of the (defaulted) gross amounts of a list of transactions. -/
def sumGross (l : List ReportTxn) : Rat := (l.map (fun t => t.gross.getD 0)).sum

/-- Model of `ReportsComponent.calculateGuV`: filter income and expenses,
sum the gross amounts, and emit the revenue, costs and balance rows (the
20% tax and net-profit rows are computed in the code but commented out of
the returned table). -/
def ReportsComponent.calculateGuV (txs : List ReportTxn) : List (String × String) :=
  let income := txs.filter (fun t => decide (t.incomeExpenses = some "income"))
  let expenses := txs.filter (fun t => decide (t.incomeExpenses = some "expense"))
  let totalIncome := jsToFixed2 (income.foldl (fun s t => s + t.gross.getD 0) 0)
  let totalExpenses := jsToFixed2 (expenses.foldl (fun s t => s + t.gross.getD 0) 0)
  let profitBeforeTax :=
    jsToFixed2 ((parseFloatM totalIncome).getD 0 - (parseFloatM totalExpenses).getD 0)
  [("REVENUE", ReportsComponent.formatAmount totalIncome),
    ("COSTS", ReportsComponent.formatAmount totalExpenses),
    ("BALANCE", ReportsComponent.formatAmount profitBeforeTax)]

theorem foldl_add_gross (l : List ReportTxn) :
    ∀ a : Rat, l.foldl (fun s t => s + t.gross.getD 0) a = a + sumGross l := by
  induction l with
  | nil => intro a; simp [sumGross]
  | cons t rest ih =>
      intro a
      simp only [List.foldl_cons, ih (a + t.gross.getD 0), sumGross, List.map_cons,
        List.sum_cons]
      ring

/-- C3: `calculateGuV` partitions the transactions into income and expenses,
sums the gross amounts of each part, and returns exactly the revenue, costs
and balance rows, the balance being revenue minus costs (both as reported,
at cent precision); no tax or net-profit row is returned. -/
theorem c3_calculateGuV (txs : List ReportTxn) :
    ReportsComponent.calculateGuV txs
      = [("REVENUE", ReportsComponent.formatAmount (jsToFixed2
            (sumGross (txs.filter (fun t => decide (t.incomeExpenses = some "income")))))),
          ("COSTS", ReportsComponent.formatAmount (jsToFixed2
            (sumGross (txs.filter (fun t => decide (t.incomeExpenses = some "expense")))))),
          ("BALANCE", ReportsComponent.formatAmount (jsToFixed2
            (round2 (sumGross (txs.filter (fun t => decide (t.incomeExpenses = some "income"))))
              - round2 (sumGross (txs.filter (fun t => decide (t.incomeExpenses = some "expense")))))))] := by
  unfold ReportsComponent.calculateGuV
  dsimp only
  rw [foldl_add_gross _ 0, foldl_add_gross _ 0]
  rw [parseFloatM_jsToFixed2, parseFloatM_jsToFixed2]
  simp only [zero_add, Option.getD_some]

/-- Lookup in the category-totals record. -/
def lookupAmount : List (String × Rat) → String → Option Rat
  | [], _ => none
  | (k, v) :: rest, c => if k = c then some v else lookupAmount rest c

theorem lookupAmount_upsert_self (acc : List (String × Rat)) (k : String) (v : Rat) :
    lookupAmount (upsertAmount acc k v) k = some ((lookupAmount acc k).getD 0 + v) := by
  induction acc with
  | nil => simp [upsertAmount, lookupAmount]
  | cons p rest ih =>
      obtain ⟨k', v'⟩ := p
      by_cases h : k' = k
      · simp [upsertAmount, lookupAmount, h]
      · simp [upsertAmount, lookupAmount, h, ih]

theorem lookupAmount_upsert_ne (acc : List (String × Rat)) (k : String) (v : Rat)
    (c : String) (h : c ≠ k) :
    lookupAmount (upsertAmount acc k v) c = lookupAmount acc c := by
  have hkc : (k = c) = False := by
    simp only [eq_iff_iff, iff_false]
    intro hh
    exact h hh.symm
  have hck : (c = k) = False := by
    simp only [eq_iff_iff, iff_false]
    exact h
  induction acc with
  | nil => simp [upsertAmount, lookupAmount, hkc]
  | cons p rest ih =>
      obtain ⟨k', v'⟩ := p
      by_cases hk : k' = k
      · subst hk
        simp [upsertAmount, lookupAmount, hkc]
      · by_cases hc : k' = c
        · simp [upsertAmount, lookupAmount, hk, hc, hck]
        · simp [upsertAmount, lookupAmount, hk, hc, ih]

theorem keys_upsert (acc : List (String × Rat)) (k : String) (v : Rat) :
    (upsertAmount acc k v).map Prod.fst
      = if k ∈ acc.map Prod.fst then acc.map Prod.fst else acc.map Prod.fst ++ [k] := by
  induction acc with
  | nil => simp [upsertAmount]
  | cons p rest ih =>
      obtain ⟨k', v'⟩ := p
      by_cases h : k' = k
      · simp [upsertAmount, h]
      · have hkk : ¬ k = k' := fun hh => h hh.symm
        simp only [upsertAmount, if_neg h, List.map_cons, List.mem_cons]
        rw [ih]
        by_cases hm : k ∈ rest.map Prod.fst
        · simp [hm, hkk]
        · simp [hm, hkk]

theorem keys_nodup_upsert (acc : List (String × Rat)) (k : String) (v : Rat)
    (h : (acc.map Prod.fst).Nodup) : ((upsertAmount acc k v).map Prod.fst).Nodup := by
  rw [keys_upsert]
  by_cases hm : k ∈ acc.map Prod.fst
  · simpa [hm] using h
  · simp only [hm, if_false]
    rw [List.nodup_append]
    exact ⟨h, List.nodup_singleton k, by simpa using hm⟩

theorem keys_nodup_fold (txs : List ReportTxn) :
    ∀ acc : List (String × Rat), (acc.map Prod.fst).Nodup →
      ((txs.foldl (fun a t => upsertAmount a (categoryKey t) (t.gross.getD 0)) acc).map
        Prod.fst).Nodup := by
  induction txs with
  | nil => intro acc h; simpa using h
  | cons t rest ih =>
      intro acc h
      exact ih _ (keys_nodup_upsert acc (categoryKey t) (t.gross.getD 0) h)

theorem lookupAmount_of_mem (l : List (String × Rat)) (hnd : (l.map Prod.fst).Nodup)
    (c : String) (v : Rat) (hm : (c, v) ∈ l) : lookupAmount l c = some v := by
  induction l with
  | nil => cases hm
  | cons p rest ih =>
      obtain ⟨k', v'⟩ := p
      rcases List.mem_cons.mp hm with heq | hmem
      · injection heq with h1 h2
        subst h1
        subst h2
        simp [lookupAmount]
      · have hnd' : (rest.map Prod.fst).Nodup := by
          simp only [List.map_cons, List.nodup_cons] at hnd
          exact hnd.2
        have hk : ¬ (k' = c) := by
          intro hk
          subst hk
          simp only [List.map_cons, List.nodup_cons] at hnd
          exact hnd.1 (List.mem_map.mpr ⟨(k', v), hmem, rfl⟩)
        simp only [lookupAmount, if_neg hk]
        exact ih hnd' hmem

theorem mem_of_lookupAmount (l : List (String × Rat)) (c : String) (v : Rat)
    (h : lookupAmount l c = some v) : (c, v) ∈ l := by
  induction l with
  | nil => cases h
  | cons p rest ih =>
      obtain ⟨k', v'⟩ := p
      by_cases hk : k' = c
      · subst hk
        simp only [lookupAmount, if_pos] at h
        injection h with h
        subst h
        simp
      · simp only [lookupAmount, if_neg hk] at h
        exact List.mem_cons_of_mem _ (ih h)

theorem lookupAmount_fold (txs : List ReportTxn) :
    ∀ (acc : List (String × Rat)) (c : String),
      lookupAmount (txs.foldl (fun a t => upsertAmount a (categoryKey t) (t.gross.getD 0)) acc) c
        = match lookupAmount acc c with
          | some v =>
              some (v + sumGross (txs.filter (fun t => decide (categoryKey t = c))))
          | none =>
              if txs.filter (fun t => decide (categoryKey t = c)) = [] then none
              else some (sumGross (txs.filter (fun t => decide (categoryKey t = c)))) := by
  induction txs with
  | nil =>
      intro acc c
      cases h : lookupAmount acc c <;> simp [h, sumGross]
  | cons t rest ih =>
      intro acc c
      simp only [List.foldl_cons]
      rw [ih (upsertAmount acc (categoryKey t) (t.gross.getD 0)) c]
      by_cases hk : categoryKey t = c
      · rw [show lookupAmount (upsertAmount acc (categoryKey t) (t.gross.getD 0)) c
            = some ((lookupAmount acc c).getD 0 + t.gross.getD 0) by
          rw [← hk]
          exact lookupAmount_upsert_self acc (categoryKey t) (t.gross.getD 0)]
        rw [List.filter_cons_of_pos (by simpa using hk)]
        cases h : lookupAmount acc c with
        | some v =>
            simp only [h, Option.getD_some, sumGross, List.map_cons, List.sum_cons]
            congr 1
            ring
        | none =>
            simp only [h, Option.getD_none, reduceCtorEq, if_neg, sumGross, List.map_cons,
              List.sum_cons, zero_add]
            simp
      · rw [lookupAmount_upsert_ne acc (categoryKey t) (t.gross.getD 0) c
          (fun hh => hk hh.symm)]
        rw [List.filter_cons_of_neg (by simpa using hk)]

theorem lookupAmount_categoryTotals (txs : List ReportTxn) (c : String) :
    lookupAmount (categoryTotals txs) c
      = if txs.filter (fun t => decide (categoryKey t = c)) = [] then none
        else some (sumGross (txs.filter (fun t => decide (categoryKey t = c)))) := by
  unfold categoryTotals
  rw [lookupAmount_fold txs [] c]
  simp [lookupAmount]

/-- C4: `calculateCategories` groups the transactions by their category
string (absent categories bucketed as "Other"), and each reported group
total is the Euro-formatted sum of the gross amounts of exactly the
transactions in that group, regardless of income/expense kind. -/
theorem c4_calculateCategories (txs : List ReportTxn) :
    (∀ p ∈ ReportsComponent.calculateCategories txs,
        p.2 = String.mk ('€' :: ' ' :: (jsToFixed2
          (sumGross (txs.filter (fun t => decide (categoryKey t = p.1))))).data))
      ∧ (∀ c : String,
        (∃ s, (c, s) ∈ ReportsComponent.calculateCategories txs)
          ↔ ∃ t ∈ txs, categoryKey t = c) := by
  have hnd : ((categoryTotals txs).map Prod.fst).Nodup :=
    keys_nodup_fold txs [] (by simp)
  constructor
  · rintro ⟨c, s⟩ hp
    simp only [ReportsComponent.calculateCategories, List.mem_map] at hp
    obtain ⟨⟨c2, v⟩, hq, heq⟩ := hp
    injection heq with h1 h2
    subst h1
    subst h2
    have hlk : lookupAmount (categoryTotals txs) c2 = some v :=
      lookupAmount_of_mem _ hnd _ _ hq
    rw [lookupAmount_categoryTotals txs c2] at hlk
    by_cases hf : txs.filter (fun t => decide (categoryKey t = c2)) = []
    · rw [if_pos hf] at hlk
      cases hlk
    · rw [if_neg hf] at hlk
      injection hlk with hv
      subst hv
      rfl
  · intro c
    constructor
    · rintro ⟨s, hs⟩
      simp only [ReportsComponent.calculateCategories, List.mem_map] at hs
      obtain ⟨⟨c2, v⟩, hq, heq⟩ := hs
      injection heq with h1 h2
      subst h1
      have hlk : lookupAmount (categoryTotals txs) c2 = some v :=
        lookupAmount_of_mem _ hnd _ _ hq
      rw [lookupAmount_categoryTotals txs c2] at hlk
      by_cases hf : txs.filter (fun t => decide (categoryKey t = c2)) = []
      · rw [if_pos hf] at hlk
        cases hlk
      · obtain ⟨t, ht⟩ := List.exists_mem_of_ne_nil _ hf
        have := List.mem_filter.mp ht
        exact ⟨t, this.1, by simpa using this.2⟩
    · rintro ⟨t, ht, hkey⟩
      have hf : txs.filter (fun t => decide (categoryKey t = c)) ≠ [] :=
        List.ne_nil_of_mem (List.mem_filter.mpr ⟨ht, by simpa using hkey⟩)
      have hlk : lookupAmount (categoryTotals txs) c
          = some (sumGross (txs.filter (fun t => decide (categoryKey t = c)))) := by
        rw [lookupAmount_categoryTotals txs c, if_neg hf]
      have hmem := mem_of_lookupAmount _ _ _ hlk
      exact ⟨String.mk ('€' :: ' ' :: (jsToFixed2
          (sumGross (txs.filter (fun t => decide (categoryKey t = c))))).data),
        List.mem_map.mpr ⟨_, hmem, rfl⟩⟩

/-- A stored report (the binary `blob` is irrelevant to naming). -/
structure Report where
  id : String
  name : String
deriving DecidableEq, Repr

/-- The collision test `this.reports.some(report => report.name === uniqueName)`. -/
def nameTaken (reports : List Report) (s : String) : Bool :=
  reports.any (fun r => decide (r.name = s))

/-- The candidate produced in the loop body: `` `${baseName} - ${count}` ``. -/
def nameCandidate (baseName : String) (k : Nat) : String :=
  baseName ++ " - " ++ natToStr k

/-- The while loop of `generateUniqueReportName`, with explicit fuel; any
fuel above the number of stored reports reaches the first free name. -/
def uniqueNameLoop (reports : List Report) (baseName : String) :
    Nat → Nat → String → String
  | 0, _, current => current
  | fuel + 1, count, current =>
      if nameTaken reports current = true then
        uniqueNameLoop reports baseName fuel (count + 1) (nameCandidate baseName count)
      else current

/-- Model of `ReportsComponent.generateUniqueReportName`. -/
def ReportsComponent.generateUniqueReportName (reports : List Report)
    (baseName : String) : String :=
  uniqueNameLoop reports baseName (reports.length + 1) 2 baseName

theorem uniqueNameLoop_free (reports : List Report) (baseName : String) (fuel count : Nat)
    (current : String) (h : nameTaken reports current = false) :
    uniqueNameLoop reports baseName fuel count current = current := by
  cases fuel with
  | zero => rfl
  | succ f => simp [uniqueNameLoop, h]

theorem uniqueNameLoop_taken (reports : List Report) (baseName : String) :
    ∀ (fuel count : Nat) (current : String),
      nameTaken reports current = true →
      (∃ j, count ≤ j ∧ j < count + fuel
        ∧ nameTaken reports (nameCandidate baseName j) = false) →
      ∃ k, count ≤ k
        ∧ uniqueNameLoop reports baseName fuel count current = nameCandidate baseName k
        ∧ nameTaken reports (nameCandidate baseName k) = false
        ∧ ∀ j, count ≤ j → j < k → nameTaken reports (nameCandidate baseName j) = true := by
  intro fuel
  induction fuel with
  | zero =>
      intro count current hcur hex
      obtain ⟨j, hj1, hj2, _⟩ := hex
      omega
  | succ f ih =>
      intro count current hcur hex
      simp only [uniqueNameLoop, hcur, if_pos]
      by_cases hc : nameTaken reports (nameCandidate baseName count) = false
      · refine ⟨count, le_rfl, ?_, hc, ?_⟩
        · exact uniqueNameLoop_free reports baseName f (count + 1) _ hc
        · intro j h1 h2
          omega
      · have hc' : nameTaken reports (nameCandidate baseName count) = true := by
          simpa using hc
        obtain ⟨j, hj1, hj2, hj3⟩ := hex
        have hjne : j ≠ count := by
          intro he
          subst he
          rw [hj3] at hc'
          cases hc'
        obtain ⟨k, hk1, hk2, hk3, hk4⟩ := ih (count + 1) (nameCandidate baseName count) hc'
          ⟨j, by omega, by omega, hj3⟩
        refine ⟨k, by omega, hk2, hk3, ?_⟩
        intro j2 h1 h2
        by_cases hj2c : j2 = count
        · rw [hj2c]
          exact hc'
        · exact hk4 j2 (by omega) h2

theorem natToStr_injective (m n : Nat) (h : natToStr m = natToStr n) : m = n := by
  have h2 := congrArg (fun s => digitsVal s.data) h
  simpa [natToStr, digitsVal_natDigitsStr] using h2

theorem nameCandidate_injective (baseName : String) :
    Function.Injective (nameCandidate baseName) := by
  intro m n h
  unfold nameCandidate at h
  have hd := congrArg String.data h
  rw [String.data_append, String.data_append, String.data_append, String.data_append] at hd
  have hcancel := List.append_cancel_left hd
  exact natToStr_injective m n (String.ext hcancel)

theorem exists_free_candidate (reports : List Report) (baseName : String) :
    ∃ j, 2 ≤ j ∧ j < 2 + (reports.length + 1)
      ∧ nameTaken reports (nameCandidate baseName j) = false := by
  by_contra hall
  push_neg at hall
  have hall2 : ∀ j, 2 ≤ j → j < 2 + (reports.length + 1) →
      nameCandidate baseName j ∈ reports.map (fun r => r.name) := by
    intro j h1 h2
    have h3 := hall j h1 h2
    have h4 : nameTaken reports (nameCandidate baseName j) = true := by
      simpa using h3
    unfold nameTaken at h4
    rw [List.any_eq_true] at h4
    obtain ⟨r, hr, hname⟩ := h4
    rw [decide_eq_true_eq] at hname
    exact List.mem_map.mpr ⟨r, hr, hname⟩
  have hnd : ((List.range' 2 (reports.length + 1)).map (nameCandidate baseName)).Nodup :=
    (List.nodup_range' 2 (reports.length + 1)).map (nameCandidate_injective baseName)
  have hsub : ((List.range' 2 (reports.length + 1)).map (nameCandidate baseName)).toFinset
      ⊆ (reports.map (fun r => r.name)).toFinset := by
    intro x hx
    rw [List.mem_toFinset] at hx ⊢
    rw [List.mem_map] at hx
    obtain ⟨j, hj, rfl⟩ := hx
    rw [List.mem_range'] at hj
    obtain ⟨i, hi, rfl⟩ := hj
    exact hall2 _ (by omega) (by omega)
  have hcard1 : ((List.range' 2 (reports.length + 1)).map (nameCandidate baseName)).toFinset.card
      = reports.length + 1 := by
    rw [List.toFinset_card_of_nodup hnd]
    rw [List.length_map, List.length_range']
  have hcard2 := Finset.card_le_card hsub
  have hcard3 := List.toFinset_card_le (reports.map (fun r => r.name))
  rw [List.length_map] at hcard3
  omega

/-- C5: `generateUniqueReportName` returns the base name when it is not the
name of any stored report, and otherwise the base name suffixed with
`" - k"` for the smallest integer k ≥ 2 making the result free; in
particular a second request with the same base yields the `" - 2"` suffix. -/
theorem c5_generateUniqueReportName (reports : List Report) (baseName : String) :
    (nameTaken reports baseName = false →
        ReportsComponent.generateUniqueReportName reports baseName = baseName)
      ∧ (nameTaken reports baseName = true →
        ∃ k : Nat, 2 ≤ k
          ∧ ReportsComponent.generateUniqueReportName reports baseName
              = baseName ++ " - " ++ natToStr k
          ∧ nameTaken reports (baseName ++ " - " ++ natToStr k) = false
          ∧ ∀ j : Nat, 2 ≤ j → j < k →
              nameTaken reports (baseName ++ " - " ++ natToStr j) = true) := by
  constructor
  · intro h
    exact uniqueNameLoop_free reports baseName (reports.length + 1) 2 baseName h
  · intro h
    obtain ⟨j, hj1, hj2, hj3⟩ := exists_free_candidate reports baseName
    obtain ⟨k, hk1, hk2, hk3, hk4⟩ := uniqueNameLoop_taken reports baseName
      (reports.length + 1) 2 baseName h ⟨j, hj1, by omega, hj3⟩
    exact ⟨k, hk1, hk2, hk3, fun j2 ha hb => hk4 j2 ha hb⟩

/-- C5 witness: an unused base name is returned as is, and a second request
with an already stored base name gets the " - 2" suffix. -/
theorem c5_witness :
    ReportsComponent.generateUniqueReportName [⟨"1", "Monthly Report"⟩] "Yearly Report"
        = "Yearly Report"
      ∧ ReportsComponent.generateUniqueReportName [⟨"1", "Report"⟩] "Report"
        = "Report - 2" := by
  refine ⟨(c5_generateUniqueReportName [⟨"1", "Monthly Report"⟩] "Yearly Report").1
    (by decide), ?_⟩
  decide

/-- C4 witness: a transaction with category "Food" produces a "Food" group
in the report. -/
theorem c4_witness :
    ∃ s, ("Food", s) ∈ ReportsComponent.calculateCategories
        [⟨none, none, some 5, some "income", some "Food"⟩] :=
  ((c4_calculateCategories [⟨none, none, some 5, some "income", some "Food"⟩]).2 "Food").mpr
    ⟨⟨none, none, some 5, some "income", some "Food"⟩, by simp, by decide⟩
